import Mathlib

/-!
Verification development for the testproxy repository: a differential-testing
reverse proxy that captures each inbound HTTP request to disk, replays it to a
primary and a secondary backend, answers the caller with the primary response,
and compares the secondary response off the caller path.

The Go sources are embedded shallowly: byte strings become `List Nat` (one
natural number per octet), the uint32 exchange counter becomes arithmetic
modulo 2 ^ 32, the sync.WaitGroup counter becomes an integer, file systems
become lists of file names, and the shutdown protocol becomes a small labelled
transition system.
-/

/-! ## Decimal rendering

`fmt.Sprintf("%d", n)` and `strconv.Itoa` render a natural number in decimal.
`decDigits` peels digits most-significant first; the fuel argument only bounds
the recursion depth and is always passed as the number itself, which is an
upper bound on its digit count. -/

/-- Big-endian decimal digits of `n` as ASCII bytes, given enough fuel. -/
def decDigits : Nat → Nat → List Nat
  | 0, _ => []
  | fuel + 1, n =>
    if n = 0 then []
    else decDigits fuel (n / 10) ++ [48 + n % 10]

/-- The ASCII decimal rendering of `n`, as produced by the Go fmt verb d. -/
def decimalBytes (n : Nat) : List Nat :=
  if n = 0 then [48] else decDigits n n

/-- `fmt.Sprintf("%09d", n)` from `saveRequestResponse`: the decimal rendering
of `n`, left-padded with ASCII zeros to a minimum width of nine. -/
def pad9 (n : Nat) : List Nat :=
  List.replicate (9 - (decimalBytes n).length) 48 ++ decimalBytes n

theorem decDigits_zero (fuel : Nat) : decDigits fuel 0 = [] := by
  cases fuel <;> simp [decDigits]

theorem decDigits_fuel (n : Nat) : ∀ fuel fuel' : Nat, n ≤ fuel → n ≤ fuel' →
    decDigits fuel n = decDigits fuel' n := by
  induction n using Nat.strong_induction_on with
  | _ n ih =>
    intro fuel fuel' h h'
    rcases Nat.eq_zero_or_pos n with h0 | h0
    · subst h0
      rw [decDigits_zero, decDigits_zero]
    · obtain ⟨f, rfl⟩ : ∃ f, fuel = f + 1 := ⟨fuel - 1, by omega⟩
      obtain ⟨f', rfl⟩ : ∃ f', fuel' = f' + 1 := ⟨fuel' - 1, by omega⟩
      have hne : n ≠ 0 := by omega
      simp only [decDigits, hne, if_false]
      have hdiv : n / 10 < n := Nat.div_lt_self h0 (by norm_num)
      rw [ih (n / 10) hdiv f f' (by omega) (by omega)]

/-- Digit-count upper bound: below `10 ^ k` at most `k` digits are produced. -/
theorem decDigits_length_le (n : Nat) : ∀ fuel k : Nat, n ≤ fuel → n < 10 ^ k →
    (decDigits fuel n).length ≤ k := by
  induction n using Nat.strong_induction_on with
  | _ n ih =>
    intro fuel k h hk
    rcases Nat.eq_zero_or_pos n with h0 | h0
    · subst h0
      simp [decDigits_zero]
    · obtain ⟨f, rfl⟩ : ∃ f, fuel = f + 1 := ⟨fuel - 1, by omega⟩
      have hne : n ≠ 0 := by omega
      simp only [decDigits, hne, if_false]
      have hkpos : k ≠ 0 := by
        intro hk0
        rw [hk0, pow_zero] at hk
        omega
      obtain ⟨k', rfl⟩ : ∃ k', k = k' + 1 := ⟨k - 1, by omega⟩
      have hdiv : n / 10 < n := Nat.div_lt_self h0 (by norm_num)
      have hdivk : n / 10 < 10 ^ k' := by
        rw [Nat.div_lt_iff_lt_mul (by norm_num)]
        calc n < 10 ^ (k' + 1) := hk
          _ = 10 ^ k' * 10 := by ring
      have := ih (n / 10) hdiv f k' (by omega) hdivk
      simp only [List.length_append, List.length_cons, List.length_nil]
      omega

/-- Digit-count lower bound: from `10 ^ k` on, more than `k` digits appear. -/
theorem decDigits_length_ge (n : Nat) : ∀ fuel k : Nat, n ≤ fuel → 10 ^ k ≤ n →
    (decDigits fuel n).length ≥ k + 1 := by
  induction n using Nat.strong_induction_on with
  | _ n ih =>
    intro fuel k h hk
    have hkpow : 1 ≤ 10 ^ k := Nat.one_le_pow _ _ (by norm_num)
    have h0 : 0 < n := by omega
    obtain ⟨f, rfl⟩ : ∃ f, fuel = f + 1 := ⟨fuel - 1, by omega⟩
    have hne : n ≠ 0 := by omega
    simp only [decDigits, hne, if_false]
    simp only [List.length_append, List.length_cons, List.length_nil]
    match k with
    | 0 => omega
    | k' + 1 =>
      have hdiv : n / 10 < n := Nat.div_lt_self h0 (by norm_num)
      have hge : 10 ^ k' ≤ n / 10 := by
        rw [Nat.le_div_iff_mul_le (by norm_num)]
        calc 10 ^ k' * 10 = 10 ^ (k' + 1) := by ring
          _ ≤ n := hk
      have := ih (n / 10) hdiv f k' (by omega) hge
      omega

theorem decimalBytes_length_le (n k : Nat) (h0 : 0 < k) (hk : n < 10 ^ k) :
    (decimalBytes n).length ≤ k := by
  unfold decimalBytes
  by_cases hn : n = 0
  · simp [hn]
    omega
  · simp only [hn, if_false]
    exact decDigits_length_le n n k le_rfl hk

theorem decimalBytes_length_ge (n k : Nat) (hk : 10 ^ k ≤ n) :
    k + 1 ≤ (decimalBytes n).length := by
  unfold decimalBytes
  have hn : n ≠ 0 := by
    have : 1 ≤ 10 ^ k := Nat.one_le_pow _ _ (by norm_num)
    omega
  simp only [hn, if_false]
  exact decDigits_length_ge n n k le_rfl hk

/-- Ids below one billion render as exactly nine characters under `%09d`. -/
theorem pad9_length_of_lt (n : Nat) (h : n < 10 ^ 9) : (pad9 n).length = 9 := by
  have hle : (decimalBytes n).length ≤ 9 := decimalBytes_length_le n 9 (by norm_num) h
  simp only [pad9, List.length_append, List.length_replicate]
  omega

/-- Ids of ten or more decimal digits render longer than nine characters. -/
theorem pad9_length_of_ge (n : Nat) (h : 10 ^ 9 ≤ n) : 10 ≤ (pad9 n).length := by
  have hge : 10 ≤ (decimalBytes n).length := decimalBytes_length_ge n 9 h
  simp only [pad9, List.length_append, List.length_replicate]
  omega

/-! ## SequenceAllocator (dualServer.nextID)

`func (ds *dualServer) nextID() uint32 { return atomic.AddUint32(&ds.id, 1) }`
with `ds.id` starting at zero: the k-th call returns the new counter value,
i.e. `k` reduced modulo `2 ^ 32` (uint32 arithmetic wraps). -/

/-- One call of `nextID`: increment the uint32 counter and return the new value. -/
def nextID (id : Nat) : Nat :=
  (id + 1) % 2 ^ 32

/-- Counter value after `k` calls of `nextID`; for `k ≥ 1` this is also the
identifier returned by the k-th call. -/
def idAfter : Nat → Nat
  | 0 => 0
  | k + 1 => nextID (idAfter k)

theorem idAfter_eq (k : Nat) : idAfter k = k % 2 ^ 32 := by
  induction k with
  | zero => rfl
  | succ k ih =>
    simp only [idAfter, nextID, ih]
    conv_rhs => rw [Nat.add_mod]
    norm_num

/-! ## DrainingListener (stoppableListener, stoppableConn, httpdump.go)

The sync.WaitGroup counter is modelled as an integer so that a decrement below
zero is observable (in Go that state is a WaitGroup panic). `Accept` wraps a
successful underlying accept, calls `Add(1)` and hands out a `stoppableConn`
whose `Close` calls `wg.Done()` unconditionally on every invocation. -/

/-- The WaitGroup held inside `stoppableListener`, reduced to its counter. -/
structure WaitGroup where
  counter : Int
deriving Repr, DecidableEq

/-- `wg.Add(n)`. -/
def WaitGroup.add (wg : WaitGroup) (n : Int) : WaitGroup :=
  ⟨wg.counter + n⟩

/-- `wg.Done()`: in Go this panics once the counter would go negative; the
model keeps the arithmetic effect so the violation is visible. -/
def WaitGroup.done (wg : WaitGroup) : WaitGroup :=
  ⟨wg.counter - 1⟩

/-- `stoppableListener.Accept` on the path where the underlying accept
succeeds: `sl.Add(1)` and return the decorated connection. -/
def stoppableListenerAccept (wg : WaitGroup) : WaitGroup :=
  wg.add 1

/-- `stoppableConn.Close`: `sc.wg.Done()` happens on every single call. -/
def stoppableConnClose (wg : WaitGroup) : WaitGroup :=
  wg.done

/-- `k` consecutive invocations of `Close` on the same connection. -/
def closeTimes : Nat → WaitGroup → WaitGroup
  | 0, wg => wg
  | k + 1, wg => closeTimes k (stoppableConnClose wg)

theorem closeTimes_counter (k : Nat) (wg : WaitGroup) :
    (closeTimes k wg).counter = wg.counter - k := by
  induction k generalizing wg with
  | zero => simp [closeTimes]
  | succ k ih =>
    simp only [closeTimes, ih, stoppableConnClose, WaitGroup.done]
    push_cast
    ring

/-! ## DualDispatcher, client variant (main.go dualServer.ServeHTTP)

The handler is a function of the per-exchange outcomes of its effectful
collaborators (file system and the two backends), gathered in `EnvA`.
The translation follows main.go line by line:

  1. `saveRequestResponse` persists the request; on error answer 500 and stop.
  2. `readReq()` reopens and reparses the stored request; on error 500, stop.
  3. `ds.primary.Do(r)`; on error answer 500 ("call primary") and stop —
     the goroutine that dispatches the secondary is never started.
  4. Detached goroutine: second `readReq()`, `ds.secondary.Do`,
     `saveResp(resp2, 2)`, then log a status-code mismatch when the secondary
     status differs from the primary one.
  5. `saveResp(resp1, 1)`: on success answer with the reparsed response; on
     error fall back to `resp1` itself, whose body stream has already been
     consumed as far as `resp1.Write` got before failing.
  6. Copy status, headers and body of the chosen response to the caller. -/

/-- A parsed HTTP response: status code, header set, body bytes. -/
structure HttpResponse where
  status : Nat
  headers : List (List Nat × List Nat)
  body : List Nat
deriving Repr, DecidableEq

/-- Outcome of one `saveResponse` call (main.go):
`ok` — create, write, seek and reparse all succeed, yielding a reparsed
response with the same status, headers and body read back from the file;
`createFail` — `os.Create` fails before the response stream is touched;
`writeFail consumed` — `resp.Write` fails after having drained `consumed`
bytes of the response body into the doomed file. -/
inductive SaveRespOutcome where
  | ok : SaveRespOutcome
  | createFail : SaveRespOutcome
  | writeFail : Nat → SaveRespOutcome
deriving Repr, DecidableEq

/-- Per-exchange outcomes of the effectful collaborators of
`dualServer.ServeHTTP` (main.go variant). -/
structure EnvA where
  captureOk : Bool
  replayOk : Bool
  primaryResp : Option HttpResponse
  savePrimary : SaveRespOutcome
  replay2Ok : Bool
  secondaryResp : Option HttpResponse
  saveSecondary : SaveRespOutcome
deriving Repr, DecidableEq

/-- Observable outcome of one exchange handled by the main.go variant:
what the caller received, which backends were dispatched, and whether the
status-mismatch log line was emitted. -/
structure ResultA where
  status : Nat
  headers : List (List Nat × List Nat)
  body : List Nat
  dispatchedPrimary : Bool
  dispatchedSecondary : Bool
  mismatchLogged : Bool
deriving Repr, DecidableEq

/-- `http.StatusInternalServerError`. -/
def statusInternalServerError : Nat := 500

/-- `http.StatusBadGateway`. -/
def statusBadGateway : Nat := 502

/-- `http.StatusGatewayTimeout`. -/
def statusGatewayTimeout : Nat := 504

/-- `http.Error(w, msg, 500)` as observed by the caller: the error detail is
not tracked, only the status and the empty header set. -/
def httpError500 (dp ds : Bool) : ResultA :=
  ⟨statusInternalServerError, [], [], dp, ds, false⟩

/-- `dualServer.ServeHTTP` of main.go as a function of the exchange
environment. -/
def serveHttpA (env : EnvA) : ResultA :=
  if ¬env.captureOk then httpError500 false false
  else if ¬env.replayOk then httpError500 false false
  else
    match env.primaryResp with
    | none => httpError500 true false
    | some resp1 =>
      let dispatched2 := env.replay2Ok
      let mismatch :=
        match env.replay2Ok, env.secondaryResp, env.saveSecondary with
        | true, some resp2, .ok => decide (resp2.status ≠ resp1.status)
        | _, _, _ => false
      match env.savePrimary with
      | .ok =>
        ⟨resp1.status, resp1.headers, resp1.body, true, dispatched2, mismatch⟩
      | .createFail =>
        ⟨resp1.status, resp1.headers, resp1.body, true, dispatched2, mismatch⟩
      | .writeFail consumed =>
        ⟨resp1.status, resp1.headers, resp1.body.drop consumed, true,
          dispatched2, mismatch⟩

/-! ## RequestRecorder (saveRequest / writeRequest and readReq)

`saveRequest` serializes the inbound request to the `.0` file with
`r.Write(fh)`: request line, header fields, a Content-Length field, a blank
line, then the body bytes. Each replay (`readReq` in main.go, one loop
iteration of `saveRequestResponse` in the other variant) reopens that file and
reparses it with `http.ReadRequest`: the first line is split at spaces, header
fields are read line by line up to the blank line (each line split at the
first colon, the value trimmed of surrounding spaces), and the body is the
following bytes bounded by the parsed Content-Length. -/

/-- A parsed HTTP request: method, target, header set, body bytes. -/
structure HttpRequest where
  method : List Nat
  target : List Nat
  headers : List (List Nat × List Nat)
  body : List Nat
deriving Repr, DecidableEq

/-- The ASCII bytes of "HTTP/1.1". -/
def httpVersion : List Nat := [72, 84, 84, 80, 47, 49, 46, 49]

/-- The ASCII bytes of "Content-Length". -/
def contentLengthName : List Nat :=
  [67, 111, 110, 116, 101, 110, 116, 45, 76, 101, 110, 103, 116, 104]

/-- One serialized header field: name, colon, space, value, CRLF. -/
def headerLineBytes (kv : List Nat × List Nat) : List Nat :=
  kv.1 ++ 58 :: 32 :: kv.2 ++ [13, 10]

/-- The bytes `http.Request.Write` persists into the `.0` file: request line,
the header fields followed by the Content-Length field, a blank line, and the
body. -/
def encodeRequest (r : HttpRequest) : List Nat :=
  r.method ++ 32 :: r.target ++ 32 :: httpVersion ++ 13 :: 10 ::
    (((r.headers ++ [(contentLengthName, decimalBytes r.body.length)]).map
        headerLineBytes).flatten
      ++ 13 :: 10 :: r.body)

/-- Split a byte list at the first occurrence of `sep`. -/
def splitAtByte (sep : Nat) : List Nat → Option (List Nat × List Nat)
  | [] => none
  | b :: rest =>
    if b = sep then some ([], rest)
    else (splitAtByte sep rest).map fun p => (b :: p.1, p.2)

/-- Remove one trailing CR, as the textproto reader does on each line. -/
def stripCR (l : List Nat) : List Nat :=
  if l.getLast? = some 13 then l.dropLast else l

/-- Read one line: the bytes before the first LF with a trailing CR removed,
and the remaining input. -/
def readLine (bs : List Nat) : Option (List Nat × List Nat) :=
  (splitAtByte 10 bs).map fun p => (stripCR p.1, p.2)

/-- Trim leading and trailing ASCII spaces from a header value. -/
def trimSpaces (l : List Nat) : List Nat :=
  ((l.dropWhile (· == 32)).reverse.dropWhile (· == 32)).reverse

/-- Read MIME header fields up to the blank line; returns the parsed fields
and the remaining input. The fuel bounds the recursion by the input length. -/
def parseHeaderFields :
    Nat → List Nat → Option (List (List Nat × List Nat) × List Nat)
  | 0, _ => none
  | fuel + 1, bs =>
    match readLine bs with
    | none => none
    | some (line, rest) =>
      if line = [] then some ([], rest)
      else
        match splitAtByte 58 line with
        | none => none
        | some (nm, v) =>
          (parseHeaderFields fuel rest).map fun p =>
            ((nm, trimSpaces v) :: p.1, p.2)

/-- Split the request line into method and target at its two first spaces. -/
def parseRequestLine (line : List Nat) : Option (List Nat × List Nat) :=
  match splitAtByte 32 line with
  | none => none
  | some (m, rest) =>
    match splitAtByte 32 rest with
    | none => none
    | some (t, _) => some (m, t)

/-- Is `b` an ASCII decimal digit? -/
def isDigitByte (b : Nat) : Bool := 48 ≤ b && b ≤ 57

/-- Accumulate the value of a big-endian digit string. -/
def decVal : List Nat → Nat → Nat
  | [], acc => acc
  | b :: bs, acc => decVal bs (acc * 10 + (b - 48))

/-- Parse a nonempty all-digit byte string as a natural number. -/
def parseDec (bs : List Nat) : Option Nat :=
  if bs.isEmpty then none
  else if bs.all isDigitByte then some (decVal bs 0) else none

/-- First header value stored under the given field name. -/
def findHeaderValue : List (List Nat × List Nat) → List Nat → Option (List Nat)
  | [], _ => none
  | kv :: rest, nm => if kv.1 = nm then some kv.2 else findHeaderValue rest nm

/-- `http.ReadRequest` over the stored bytes: request line, header fields,
then the body bounded by the parsed Content-Length (zero when absent). -/
def parseRequest (bs : List Nat) : Option HttpRequest :=
  match readLine bs with
  | none => none
  | some (rline, rest) =>
    match parseRequestLine rline with
    | none => none
    | some (m, t) =>
      match parseHeaderFields (rest.length + 1) rest with
      | none => none
      | some (hs, rest2) =>
        let bodyLen :=
          match findHeaderValue hs contentLengthName with
          | none => 0
          | some v =>
            match parseDec v with
            | none => 0
            | some n => n
        some ⟨m, t, hs, rest2.take bodyLen⟩

/-- The bytes `saveRequest` (main.go) and `writeRequest` (the reverse-proxy
variant) persist into the `.0` file. -/
def saveRequestBytes (r : HttpRequest) : List Nat := encodeRequest r

/-- One replay: reopen the stored bytes and reparse them; both the primary
and the secondary replay are exactly this function of the same stored file. -/
def replayRequest (stored : List Nat) : Option HttpRequest :=
  parseRequest stored

/-- The inbound request is serializable without damage: methods and targets
carry no LF and no space, header names no LF and no colon, header values no
LF, and no caller-supplied header is itself named Content-Length. -/
def wellFormedRequest (r : HttpRequest) : Prop :=
  10 ∉ r.method ∧ 32 ∉ r.method ∧ 10 ∉ r.target ∧ 32 ∉ r.target ∧
    ∀ kv ∈ r.headers,
      10 ∉ kv.1 ∧ 58 ∉ kv.1 ∧ 10 ∉ kv.2 ∧ kv.1 ≠ contentLengthName

instance (r : HttpRequest) : Decidable (wellFormedRequest r) := by
  unfold wellFormedRequest
  infer_instance

theorem splitAtByte_append (sep : Nat) (line rest : List Nat)
    (h : sep ∉ line) : splitAtByte sep (line ++ sep :: rest) = some (line, rest) := by
  induction line with
  | nil => simp [splitAtByte]
  | cons b l ih =>
    simp only [List.mem_cons, not_or] at h
    simp only [List.cons_append, splitAtByte, if_neg (Ne.symm h.1),
      List.append_eq, ih h.2, Option.map_some']

theorem readLine_crlf (line rest : List Nat) (h : 10 ∉ line) :
    readLine (line ++ 13 :: 10 :: rest) = some (line, rest) := by
  have h2 : (10 : Nat) ∉ line ++ [13] := by
    simp only [List.mem_append, List.mem_singleton, not_or]
    exact ⟨h, by norm_num⟩
  have hshape : line ++ 13 :: 10 :: rest = (line ++ [13]) ++ 10 :: rest := by
    simp [List.append_assoc]
  rw [readLine, hshape, splitAtByte_append 10 _ _ h2]
  simp only [Option.map_some']
  congr 2
  rw [stripCR, if_pos (by rw [List.getLast?_concat]), List.dropLast_concat]

theorem dropWhile_space_of_not_mem (l : List Nat) (h : 32 ∉ l) :
    l.dropWhile (· == 32) = l := by
  cases l with
  | nil => rfl
  | cons b bs =>
    simp only [List.mem_cons, not_or] at h
    rw [List.dropWhile_cons_of_neg]
    simp only [beq_iff_eq]
    exact Ne.symm h.1

theorem trimSpaces_of_no_space (l : List Nat) (h : 32 ∉ l) :
    trimSpaces l = l := by
  rw [trimSpaces, dropWhile_space_of_not_mem l h,
    dropWhile_space_of_not_mem _ (by simpa using h), List.reverse_reverse]

theorem trimSpaces_cons_space (v : List Nat) :
    trimSpaces (32 :: v) = trimSpaces v := by
  rw [trimSpaces, trimSpaces, List.dropWhile_cons_of_pos (by simp)]

theorem decDigits_mem (fuel : Nat) :
    ∀ n b : Nat, b ∈ decDigits fuel n → 48 ≤ b ∧ b ≤ 57 := by
  induction fuel with
  | zero =>
    intro n b hb
    simp [decDigits] at hb
  | succ f ih =>
    intro n b hb
    simp only [decDigits] at hb
    by_cases h0 : n = 0
    · simp [h0] at hb
    · simp only [h0, if_false, List.mem_append, List.mem_singleton] at hb
      rcases hb with hb | hb
      · exact ih _ _ hb
      · subst hb
        have := Nat.mod_lt n (show 0 < 10 by norm_num)
        omega

theorem decimalBytes_mem (n b : Nat) (hb : b ∈ decimalBytes n) :
    48 ≤ b ∧ b ≤ 57 := by
  unfold decimalBytes at hb
  by_cases h0 : n = 0
  · simp [h0] at hb
    omega
  · simp only [h0, if_false] at hb
    exact decDigits_mem n n b hb

theorem decimalBytes_ne_nil (n : Nat) : decimalBytes n ≠ [] := by
  unfold decimalBytes
  by_cases h0 : n = 0
  · simp [h0]
  · simp only [h0, if_false]
    obtain ⟨f, rfl⟩ : ∃ f, n = f + 1 := ⟨n - 1, by omega⟩
    show decDigits (f + 1) (f + 1) ≠ []
    simp only [decDigits]
    rw [if_neg (by omega)]
    simp

theorem decVal_append (xs ys : List Nat) :
    ∀ acc : Nat, decVal (xs ++ ys) acc = decVal ys (decVal xs acc) := by
  induction xs with
  | nil => intro acc; rfl
  | cons b bs ih =>
    intro acc
    rw [List.cons_append, decVal, decVal]
    exact ih _

theorem decVal_decDigits (n : Nat) :
    ∀ fuel acc : Nat, n ≤ fuel →
      decVal (decDigits fuel n) acc = acc * 10 ^ (decDigits fuel n).length + n := by
  induction n using Nat.strong_induction_on with
  | _ n ih =>
    intro fuel acc h
    rcases Nat.eq_zero_or_pos n with h0 | h0
    · subst h0
      simp [decDigits_zero, decVal]
    · obtain ⟨f, rfl⟩ : ∃ f, fuel = f + 1 := ⟨fuel - 1, by omega⟩
      have hne : n ≠ 0 := by omega
      have hdiv : n / 10 < n := Nat.div_lt_self h0 (by norm_num)
      simp only [decDigits, hne, if_false]
      rw [decVal_append]
      rw [ih (n / 10) hdiv f acc (by omega)]
      simp only [decVal, List.length_append, List.length_cons, List.length_nil]
      have hdm : n / 10 * 10 + n % 10 = n := by
        have := Nat.div_add_mod n 10
        omega
      have hsub : 48 + n % 10 - 48 = n % 10 := by omega
      rw [hsub, pow_succ]
      generalize (decDigits f (n / 10)).length = L
      have hring : (acc * 10 ^ L + n / 10) * 10 + (n % 10)
          = acc * (10 ^ L * 10) + (n / 10 * 10 + n % 10) := by ring
      rw [hring, hdm]

theorem parseDec_decimalBytes (n : Nat) : parseDec (decimalBytes n) = some n := by
  rw [parseDec]
  rw [if_neg (by simp [List.isEmpty_iff, decimalBytes_ne_nil n])]
  rw [if_pos]
  · congr 1
    rw [decimalBytes]
    by_cases h0 : n = 0
    · simp [h0, decVal]
    · simp only [h0, if_false]
      have := decVal_decDigits n n 0 le_rfl
      simpa using this
  · rw [List.all_eq_true]
    intro b hb
    have hd := decimalBytes_mem n b hb
    unfold isDigitByte
    rw [Bool.and_eq_true, decide_eq_true_eq, decide_eq_true_eq]
    exact hd

theorem findHeaderValue_append_last (nm v : List Nat) :
    ∀ hs : List (List Nat × List Nat), (∀ kv ∈ hs, kv.1 ≠ nm) →
      findHeaderValue (hs ++ [(nm, v)]) nm = some v := by
  intro hs
  induction hs with
  | nil =>
    intro _
    simp [findHeaderValue]
  | cons kv rest ih =>
    intro h
    rw [List.cons_append, findHeaderValue,
      if_neg (h kv (List.mem_cons_self kv rest))]
    exact ih fun kv' hkv' => h kv' (List.mem_cons_of_mem kv hkv')

theorem parseHeaderFields_flatten (hs : List (List Nat × List Nat)) :
    ∀ (fuel : Nat) (tail : List Nat),
      ((hs.map headerLineBytes).flatten ++ 13 :: 10 :: tail).length < fuel →
      (∀ kv ∈ hs, 10 ∉ kv.1 ∧ 58 ∉ kv.1 ∧ 10 ∉ kv.2) →
      parseHeaderFields fuel ((hs.map headerLineBytes).flatten ++ 13 :: 10 :: tail)
        = some (hs.map fun kv => (kv.1, trimSpaces kv.2), tail) := by
  induction hs with
  | nil =>
    intro fuel tail hfuel _
    obtain ⟨f, rfl⟩ : ∃ f, fuel = f + 1 := ⟨fuel - 1, by omega⟩
    simp only [List.map_nil, List.flatten_nil, List.nil_append]
    show parseHeaderFields (f + 1) ([] ++ 13 :: 10 :: tail)
      = some ([], tail)
    rw [parseHeaderFields, readLine_crlf [] tail (by simp)]
    simp
  | cons kv hs ih =>
    intro fuel tail hfuel hok
    obtain ⟨f, rfl⟩ : ∃ f, fuel = f + 1 := ⟨fuel - 1, by omega⟩
    obtain ⟨h1, h2, h3⟩ := hok kv (List.mem_cons_self kv hs)
    have hrearr : ((kv :: hs).map headerLineBytes).flatten ++ 13 :: 10 :: tail
        = (kv.1 ++ 58 :: 32 :: kv.2)
          ++ 13 :: 10 :: ((hs.map headerLineBytes).flatten ++ 13 :: 10 :: tail) := by
      simp [headerLineBytes, List.append_assoc]
    rw [hrearr] at hfuel ⊢
    rw [parseHeaderFields, readLine_crlf _ _ (by
      simp only [List.mem_append, List.mem_cons, not_or]
      refine ⟨h1, by norm_num, by norm_num, h3⟩)]
    have hlen : ((hs.map headerLineBytes).flatten ++ 13 :: 10 :: tail).length < f := by
      simp only [List.length_append, List.length_cons] at hfuel ⊢
      omega
    simp only [Option.map_some']
    rw [if_neg (by simp), splitAtByte_append 58 kv.1 (32 :: kv.2) h2,
      ih f tail hlen fun kv' hkv' => hok kv' (List.mem_cons_of_mem kv hkv')]
    simp [trimSpaces_cons_space]

/-- The full byte-level round trip of one replay: reparsing the persisted
bytes of a well-formed request recovers its method, its target, its header
set (values trimmed of surrounding spaces, with the synthesized
Content-Length field appended) and, in particular, exactly the original body
bytes. -/
theorem parseRequest_encodeRequest (r : HttpRequest) (h : wellFormedRequest r) :
    parseRequest (encodeRequest r)
      = some ⟨r.method, r.target,
          ((r.headers ++ [(contentLengthName, decimalBytes r.body.length)]).map
            fun kv => (kv.1, trimSpaces kv.2)),
          r.body⟩ := by
  obtain ⟨hm10, hm32, ht10, ht32, hh⟩ := h
  have hver10 : (10 : Nat) ∉ httpVersion := by decide
  have hcl10 : (10 : Nat) ∉ contentLengthName := by decide
  have hcl58 : (58 : Nat) ∉ contentLengthName := by decide
  have hdig10 : (10 : Nat) ∉ decimalBytes r.body.length := fun hmem => by
    have := decimalBytes_mem _ _ hmem
    omega
  have hdig32 : (32 : Nat) ∉ decimalBytes r.body.length := fun hmem => by
    have := decimalBytes_mem _ _ hmem
    omega
  have hshape : encodeRequest r
      = (r.method ++ 32 :: (r.target ++ 32 :: httpVersion))
        ++ 13 :: 10 ::
          (((r.headers ++ [(contentLengthName, decimalBytes r.body.length)]).map
              headerLineBytes).flatten
            ++ 13 :: 10 :: r.body) := by
    simp [encodeRequest, List.append_assoc]
  have hline := readLine_crlf (r.method ++ 32 :: (r.target ++ 32 :: httpVersion))
    (((r.headers ++ [(contentLengthName, decimalBytes r.body.length)]).map
        headerLineBytes).flatten ++ 13 :: 10 :: r.body)
    (by
      simp only [List.mem_append, List.mem_cons, not_or]
      exact ⟨hm10, by norm_num, ht10, by norm_num, hver10⟩)
  have hsplit1 := splitAtByte_append 32 r.method (r.target ++ 32 :: httpVersion) hm32
  have hsplit2 := splitAtByte_append 32 r.target httpVersion ht32
  have hfields := parseHeaderFields_flatten
    (r.headers ++ [(contentLengthName, decimalBytes r.body.length)])
    ((((r.headers ++ [(contentLengthName, decimalBytes r.body.length)]).map
        headerLineBytes).flatten ++ 13 :: 10 :: r.body).length + 1)
    r.body (Nat.lt_succ_self _)
    (by
      intro kv hkv
      rcases List.mem_append.mp hkv with hkv | hkv
      · obtain ⟨a, b, c, _⟩ := hh kv hkv
        exact ⟨a, b, c⟩
      · rcases List.mem_singleton.mp hkv with rfl
        exact ⟨hcl10, hcl58, hdig10⟩)
  have hfind : findHeaderValue
      ((r.headers ++ [(contentLengthName, decimalBytes r.body.length)]).map
        fun kv => (kv.1, trimSpaces kv.2)) contentLengthName
      = some (trimSpaces (decimalBytes r.body.length)) := by
    rw [List.map_append, List.map_singleton]
    exact findHeaderValue_append_last _ _ _ (by
      intro kv hkv
      obtain ⟨kv0, hkv0, rfl⟩ := List.mem_map.mp hkv
      exact (hh kv0 hkv0).2.2.2)
  rw [hshape]
  simp only [parseRequest, hline, parseRequestLine, hsplit1, hsplit2, hfields,
    hfind, trimSpaces_of_no_space _ hdig32, parseDec_decimalBytes,
    List.take_length]


/-! ## Replay isolation (saveRequestResponse, both variants)

Each replay is produced by a fresh `http.ReadRequest` over a freshly opened
handle of the stored `.0` file, so each replay owns a freshly allocated
header map. The heap of allocated header maps is explicit so that aliasing
is expressible: mutating the map one replay refers to must not change the
map the other replay refers to. -/

/-- Apply `f` to the element at one position of a list, if present. -/
def listModify {α : Type} (f : α → α) : Nat → List α → List α
  | _, [] => []
  | 0, a :: as => f a :: as
  | n + 1, a :: as => a :: listModify f n as

theorem listModify_getElem_ne {α : Type} (f : α → α) :
    ∀ (l : List α) (i j : Nat), i ≠ j → (listModify f i l)[j]? = l[j]? := by
  intro l
  induction l with
  | nil => intro i j _; cases i <;> rfl
  | cons a as ih =>
    intro i j hij
    cases i with
    | zero =>
      cases j with
      | zero => exact absurd rfl hij
      | succ j => simp [listModify]
    | succ i =>
      cases j with
      | zero => simp [listModify]
      | succ j =>
        show (a :: listModify f i as)[j + 1]? = (a :: as)[j + 1]?
        simpa using ih i j (by omega)

/-- The heap of header maps allocated by replays. -/
structure HeaderHeap where
  cells : List (List (List Nat × List Nat))
deriving Repr, DecidableEq

/-- Allocate a fresh header map, returning its reference. -/
def HeaderHeap.alloc (h : HeaderHeap) (v : List (List Nat × List Nat)) :
    HeaderHeap × Nat :=
  (⟨h.cells ++ [v]⟩, h.cells.length)

/-- Read the header map a replay refers to. -/
def HeaderHeap.read (h : HeaderHeap) (ref : Nat) :
    Option (List (List Nat × List Nat)) :=
  h.cells[ref]?

/-- Mutate the header map behind one reference in place. -/
def HeaderHeap.mutate (h : HeaderHeap) (ref : Nat)
    (f : List (List Nat × List Nat) → List (List Nat × List Nat)) : HeaderHeap :=
  ⟨listModify f ref h.cells⟩

/-- A structured replay object: its header set lives behind a heap
reference, as the Go header map does. -/
structure ReqObj where
  method : List Nat
  target : List Nat
  headersRef : Nat
  body : List Nat
deriving Repr, DecidableEq

/-- One replay: reopen and reparse the stored bytes, allocating a fresh
header map for the resulting request object. -/
def openReplay (h : HeaderHeap) (stored : List Nat) :
    Option (HeaderHeap × ReqObj) :=
  match parseRequest stored with
  | none => none
  | some r =>
    let p := h.alloc r.headers
    some (p.1, ⟨r.method, r.target, p.2, r.body⟩)

/-- The two replays of one exchange: `readReq()` called twice in main.go,
or the loop of `saveRequestResponse` with `n = 2` in the reverse-proxy
variant. -/
def openTwoReplays (h : HeaderHeap) (stored : List Nat) :
    Option (HeaderHeap × ReqObj × ReqObj) :=
  match openReplay h stored with
  | none => none
  | some (h1, r1) =>
    match openReplay h1 stored with
    | none => none
    | some (h2, r2) => some (h2, r1, r2)

theorem openTwoReplays_refs (h : HeaderHeap) (stored : List Nat)
    (h' : HeaderHeap) (r1 r2 : ReqObj)
    (hopen : openTwoReplays h stored = some (h', r1, r2)) :
    r1.headersRef = h.cells.length ∧ r2.headersRef = h.cells.length + 1 := by
  unfold openTwoReplays openReplay HeaderHeap.alloc at hopen
  cases hp : parseRequest stored with
  | none => rw [hp] at hopen; exact absurd hopen (by simp)
  | some r =>
    rw [hp] at hopen
    simp only [Option.some.injEq, Prod.mk.injEq] at hopen
    obtain ⟨-, hr1, hr2⟩ := hopen
    constructor
    · rw [← hr1]
    · rw [← hr2]
      simp

/-! ## Persisted artifact layout and pruning (both ServeHTTP variants)

File names are Go strings, one natural number per byte. `filepath.Join`
inserts a slash (47); the slot files append a dot (46) and the decimal slot
number to the nine-zero-padded exchange id. The file system is the list of
names of existing files. -/

/-- `filepath.Join(ds.dir, fmt.Sprintf("%09d", id))`. -/
def exchangeBase (dir : List Nat) (id : Nat) : List Nat :=
  dir ++ 47 :: pad9 id

/-- The slot file name `base + "." + strconv.Itoa(slot)`: `.0` holds the
captured request, `.1` the primary response, `.2` the secondary response. -/
def slotFile (dir : List Nat) (id : Nat) (slot : Nat) : List Nat :=
  exchangeBase dir id ++ 46 :: decimalBytes slot

/-- `os.Create`: the named file exists afterwards. -/
def fsCreate (fs : List (List Nat)) (nm : List Nat) : List (List Nat) :=
  if nm ∈ fs then fs else nm :: fs

/-- `os.Remove`: the named file is gone afterwards. -/
def fsRemove (fs : List (List Nat)) (nm : List Nat) : List (List Nat) :=
  fs.filter (fun x => x ≠ nm)

theorem fsRemove_not_mem (fs : List (List Nat)) (nm : List Nat) :
    nm ∉ fsRemove fs nm := by
  intro hmem
  rw [fsRemove, List.mem_filter] at hmem
  simp at hmem

theorem fsRemove_subset (fs : List (List Nat)) (nm a : List Nat)
    (ha : a ∉ fs) : a ∉ fsRemove fs nm := by
  intro hmem
  rw [fsRemove, List.mem_filter] at hmem
  exact ha hmem.1

theorem fsCreate_mem_self (fs : List (List Nat)) (nm : List Nat) :
    nm ∈ fsCreate fs nm := by
  rw [fsCreate]
  by_cases h : nm ∈ fs
  · rwa [if_pos h]
  · rw [if_neg h]
    exact List.mem_cons_self nm fs

theorem fsCreate_mem_mono (fs : List (List Nat)) (nm a : List Nat)
    (ha : a ∈ fs) : a ∈ fsCreate fs nm := by
  rw [fsCreate]
  by_cases h : nm ∈ fs
  · rwa [if_pos h]
  · rw [if_neg h]
    exact List.mem_cons_of_mem nm ha

theorem decimalBytes_two : decimalBytes 2 = [50] := rfl

/-- Stripping the final byte of the `.2` file name, as
`base = base[:len(base)-1]` does in the detached branch. -/
theorem dropLast_dot_two (base : List Nat) :
    (base ++ 46 :: decimalBytes 2).dropLast = base ++ [46] := by
  have hshape : base ++ 46 :: decimalBytes 2 = (base ++ [46]) ++ [50] := by
    rw [decimalBytes_two]
    simp
  rw [hshape, List.dropLast_concat]

/-- Observable outcome of one exchange handled by the reverse-proxy variant
(part_000): the resulting file system, the status delivered to the caller,
and whether the CODE-mismatch log line was emitted. -/
structure ResultB where
  fs : List (List Nat)
  callerStatus : Nat
  mismatchLogged : Bool
deriving Repr, DecidableEq

/-- `dualServer.ServeHTTP` of the reverse-proxy variant on an exchange whose
capture succeeded and in which both backends answered, primary with status
`pS` and secondary with status `sS`. `writeRequest` creates the `.0` file;
the `saveRequestResponse` loop creates the `.1` and `.2` files; the primary
status is teed to the caller; the detached branch compares the statuses and,
when they agree, strips the final byte of the `.2` file name and removes the
three names obtained by appending `strconv.Itoa(i)` for `i = 0, 1, 2`. -/
def serveHttpB (dir : List Nat) (id : Nat) (fs0 : List (List Nat))
    (pS sS : Nat) : ResultB :=
  let base := exchangeBase dir id
  let fs1 := fsCreate fs0 (base ++ 46 :: decimalBytes 0)
  let fs2 := fsCreate fs1 (base ++ 46 :: decimalBytes 1)
  let fs3 := fsCreate fs2 (base ++ 46 :: decimalBytes 2)
  if sS ≠ pS then ⟨fs3, pS, true⟩
  else
    let stripped := (base ++ 46 :: decimalBytes 2).dropLast
    ⟨fsRemove (fsRemove (fsRemove fs3 (stripped ++ decimalBytes 0))
        (stripped ++ decimalBytes 1)) (stripped ++ decimalBytes 2),
      pS, false⟩

/-! ## Shutdown drain protocol (main and the draining listener)

One labelled transition system over the observable shutdown state. The
transitions are read off main.go and httpdump.go:

- `acceptConn`: `stoppableListener.Accept` succeeds; this requires the
  underlying listener to be open and performs `Add(1)`.
- `closeConn`: a served connection finishes — its response has been written
  and flushed by the time the server closes the connection, whose `Close`
  performs `Done()`; this requires an outstanding connection and is never
  disabled by the interrupt.
- `interrupt`: the signal goroutine runs `Add(1); Close(); Done()`: the
  underlying listener is closed and the counter is unchanged on balance.
- `serveReturn`: `http.Serve` returns once `Accept` fails, which happens
  after the listener has been closed.
- `exitProc`: `sl.Wait()` unblocks only when the counter is zero; the
  process then exits. -/

inductive ProxyEvent where
  | acceptConn : ProxyEvent
  | closeConn : ProxyEvent
  | interrupt : ProxyEvent
  | serveReturn : ProxyEvent
  | exitProc : ProxyEvent
deriving Repr, DecidableEq

/-- The observable shutdown state of the process. -/
structure ProxyState where
  listenerOpen : Bool
  conns : Nat
  interrupted : Bool
  serveReturned : Bool
  exited : Bool
deriving Repr, DecidableEq

/-- Process start: listener open, no outstanding connection. -/
def initState : ProxyState := ⟨true, 0, false, false, false⟩

/-- One enabled transition, `none` when the event cannot occur in `s`. -/
def stepFn (s : ProxyState) : ProxyEvent → Option ProxyState
  | .acceptConn =>
    if s.exited then none
    else if s.listenerOpen then some { s with conns := s.conns + 1 }
    else none
  | .closeConn =>
    if s.exited then none
    else if 0 < s.conns then some { s with conns := s.conns - 1 }
    else none
  | .interrupt =>
    if s.exited then none
    else if s.interrupted then none
    else some { s with listenerOpen := false, interrupted := true }
  | .serveReturn =>
    if s.exited then none
    else if s.listenerOpen then none
    else if s.serveReturned then none
    else some { s with serveReturned := true }
  | .exitProc =>
    if s.exited then none
    else if s.serveReturned = true ∧ s.conns = 0 then
      some { s with exited := true }
    else none

/-- Run a sequence of events, failing if any event is not enabled. -/
def runTrace : ProxyState → List ProxyEvent → Option ProxyState
  | s, [] => some s
  | s, e :: es =>
    match stepFn s e with
    | none => none
    | some s' => runTrace s' es

theorem runTrace_append (t1 t2 : List ProxyEvent) :
    ∀ s : ProxyState, runTrace s (t1 ++ t2)
      = match runTrace s t1 with
        | none => none
        | some s1 => runTrace s1 t2 := by
  induction t1 with
  | nil => intro s; rfl
  | cons e es ih =>
    intro s
    rw [List.cons_append, runTrace, runTrace]
    cases stepFn s e with
    | none => rfl
    | some s' => exact ih s'


/-- Complete characterization of one enabled step. -/
theorem stepFn_spec (s s1 : ProxyState) (e : ProxyEvent)
    (hstep : stepFn s e = some s1) :
    s.exited = false ∧
      ((e = ProxyEvent.acceptConn ∧ s.listenerOpen = true ∧
          s1 = { s with conns := s.conns + 1 }) ∨
        (e = ProxyEvent.closeConn ∧ 0 < s.conns ∧
          s1 = { s with conns := s.conns - 1 }) ∨
        (e = ProxyEvent.interrupt ∧ s.interrupted = false ∧
          s1 = { s with listenerOpen := false, interrupted := true }) ∨
        (e = ProxyEvent.serveReturn ∧ s.listenerOpen = false ∧
          s.serveReturned = false ∧ s1 = { s with serveReturned := true }) ∨
        (e = ProxyEvent.exitProc ∧ s.serveReturned = true ∧ s.conns = 0 ∧
          s1 = { s with exited := true })) := by
  cases e with
  | acceptConn =>
    rw [stepFn] at hstep
    by_cases hex : s.exited = true
    · rw [if_pos hex] at hstep
      exact Option.noConfusion hstep
    · rw [if_neg hex] at hstep
      by_cases hop : s.listenerOpen = true
      · rw [if_pos hop] at hstep
        injection hstep with h1
        exact ⟨by simpa using hex, Or.inl ⟨rfl, hop, h1.symm⟩⟩
      · rw [if_neg hop] at hstep
        exact Option.noConfusion hstep
  | closeConn =>
    rw [stepFn] at hstep
    by_cases hex : s.exited = true
    · rw [if_pos hex] at hstep
      exact Option.noConfusion hstep
    · rw [if_neg hex] at hstep
      by_cases hc : 0 < s.conns
      · rw [if_pos hc] at hstep
        injection hstep with h1
        exact ⟨by simpa using hex, Or.inr (Or.inl ⟨rfl, hc, h1.symm⟩)⟩
      · rw [if_neg hc] at hstep
        exact Option.noConfusion hstep
  | interrupt =>
    rw [stepFn] at hstep
    by_cases hex : s.exited = true
    · rw [if_pos hex] at hstep
      exact Option.noConfusion hstep
    · rw [if_neg hex] at hstep
      by_cases hi : s.interrupted = true
      · rw [if_pos hi] at hstep
        exact Option.noConfusion hstep
      · rw [if_neg hi] at hstep
        injection hstep with h1
        exact ⟨by simpa using hex,
          Or.inr (Or.inr (Or.inl ⟨rfl, by simpa using hi, h1.symm⟩))⟩
  | serveReturn =>
    rw [stepFn] at hstep
    by_cases hex : s.exited = true
    · rw [if_pos hex] at hstep
      exact Option.noConfusion hstep
    · rw [if_neg hex] at hstep
      by_cases hop : s.listenerOpen = true
      · rw [if_pos hop] at hstep
        exact Option.noConfusion hstep
      · rw [if_neg hop] at hstep
        by_cases hsr : s.serveReturned = true
        · rw [if_pos hsr] at hstep
          exact Option.noConfusion hstep
        · rw [if_neg hsr] at hstep
          injection hstep with h1
          exact ⟨by simpa using hex,
            Or.inr (Or.inr (Or.inr (Or.inl
              ⟨rfl, by simpa using hop, by simpa using hsr, h1.symm⟩)))⟩
  | exitProc =>
    rw [stepFn] at hstep
    by_cases hex : s.exited = true
    · rw [if_pos hex] at hstep
      exact Option.noConfusion hstep
    · rw [if_neg hex] at hstep
      by_cases hw : s.serveReturned = true ∧ s.conns = 0
      · rw [if_pos hw] at hstep
        injection hstep with h1
        exact ⟨by simpa using hex,
          Or.inr (Or.inr (Or.inr (Or.inr ⟨rfl, hw.1, hw.2, h1.symm⟩)))⟩
      · rw [if_neg hw] at hstep
        exact Option.noConfusion hstep

theorem runTrace_closed (t : List ProxyEvent) :
    ∀ s s' : ProxyState, s.listenerOpen = false → runTrace s t = some s' →
      s'.listenerOpen = false ∧ ProxyEvent.acceptConn ∉ t := by
  induction t with
  | nil =>
    intro s s' hcl hrun
    rw [runTrace, Option.some.injEq] at hrun
    subst hrun
    exact ⟨hcl, by simp⟩
  | cons e es ih =>
    intro s s' hcl hrun
    rw [runTrace] at hrun
    cases hstep : stepFn s e with
    | none =>
      rw [hstep] at hrun
      exact Option.noConfusion hrun
    | some s1 =>
      rw [hstep] at hrun
      obtain ⟨hex, hcase⟩ := stepFn_spec s s1 e hstep
      have hs1 : s1.listenerOpen = false ∧ e ≠ ProxyEvent.acceptConn := by
        rcases hcase with ⟨he, hop, h1⟩ | ⟨he, hc, h1⟩ | ⟨he, hi, h1⟩
          | ⟨he, hl, hsr, h1⟩ | ⟨he, hsr, hc, h1⟩
        · rw [hcl] at hop
          exact Bool.noConfusion hop
        · exact ⟨by rw [h1]; exact hcl, by rw [he]; simp⟩
        · exact ⟨by rw [h1], by rw [he]; simp⟩
        · exact ⟨by rw [h1]; exact hcl, by rw [he]; simp⟩
        · exact ⟨by rw [h1]; exact hcl, by rw [he]; simp⟩
      obtain ⟨h1, h2⟩ := ih s1 s' hs1.1 hrun
      refine ⟨h1, ?_⟩
      rw [List.mem_cons, not_or]
      exact ⟨fun hacc => hs1.2 hacc.symm, h2⟩

theorem runTrace_exited_zero (t : List ProxyEvent) :
    ∀ s s' : ProxyState, (s.exited = true → s.conns = 0) →
      runTrace s t = some s' → s'.exited = true → s'.conns = 0 := by
  induction t with
  | nil =>
    intro s s' hinv hrun
    rw [runTrace, Option.some.injEq] at hrun
    subst hrun
    exact hinv
  | cons e es ih =>
    intro s s' hinv hrun
    rw [runTrace] at hrun
    cases hstep : stepFn s e with
    | none =>
      rw [hstep] at hrun
      exact Option.noConfusion hrun
    | some s1 =>
      rw [hstep] at hrun
      obtain ⟨hex, hcase⟩ := stepFn_spec s s1 e hstep
      refine ih s1 s' ?_ hrun
      rcases hcase with ⟨he, hop, h1⟩ | ⟨he, hc, h1⟩ | ⟨he, hi, h1⟩
        | ⟨he, hl, hsr, h1⟩ | ⟨he, hsr, hc, h1⟩
      · intro hx
        rw [h1] at hx
        simp only at hx
        rw [hex] at hx
        exact Bool.noConfusion hx
      · intro hx
        rw [h1] at hx
        simp only at hx
        rw [hex] at hx
        exact Bool.noConfusion hx
      · intro hx
        rw [h1] at hx
        simp only at hx
        rw [hex] at hx
        exact Bool.noConfusion hx
      · intro hx
        rw [h1] at hx
        simp only at hx
        rw [hex] at hx
        exact Bool.noConfusion hx
      · intro _
        rw [h1]
        exact hc

/-! ## Claim theorems -/

/-- C1 (counterexample): in the client variant (main.go), when the dispatch
to the primary backend fails, `http.Error` answers with status 500 — the
internal-server-error status, which is not a gateway-error status (502 or
504). The secondary is indeed never dispatched on this path. This refutes
the gateway-error half of the claim as stated. -/
theorem C1_counterexample :
    (serveHttpA ⟨true, true, none, SaveRespOutcome.ok, true, none,
        SaveRespOutcome.ok⟩).status = statusInternalServerError ∧
      (serveHttpA ⟨true, true, none, SaveRespOutcome.ok, true, none,
        SaveRespOutcome.ok⟩).status ≠ statusBadGateway ∧
      (serveHttpA ⟨true, true, none, SaveRespOutcome.ok, true, none,
        SaveRespOutcome.ok⟩).status ≠ statusGatewayTimeout ∧
      (serveHttpA ⟨true, true, none, SaveRespOutcome.ok, true, none,
        SaveRespOutcome.ok⟩).dispatchedSecondary = false := by
  decide

/-- C1 (amended): for every exchange in which the dispatch to the primary
backend fails, the caller receives the server-error status 500 (not a
gateway-error status), and the secondary backend is never dispatched for
that exchange. -/
theorem C1_amended (env : EnvA) (hc : env.captureOk = true)
    (hr : env.replayOk = true) (hp : env.primaryResp = none) :
    (serveHttpA env).status = statusInternalServerError ∧
      (serveHttpA env).dispatchedSecondary = false := by
  simp [serveHttpA, hc, hr, hp, httpError500]

/-- C1 (witness): the amended statement at a concrete environment. -/
theorem C1_witness :
    (⟨true, true, none, SaveRespOutcome.ok, true, none,
        SaveRespOutcome.ok⟩ : EnvA).captureOk = true ∧
      (⟨true, true, none, SaveRespOutcome.ok, true, none,
        SaveRespOutcome.ok⟩ : EnvA).replayOk = true ∧
      ((serveHttpA ⟨true, true, none, SaveRespOutcome.ok, true, none,
          SaveRespOutcome.ok⟩).status = statusInternalServerError ∧
        (serveHttpA ⟨true, true, none, SaveRespOutcome.ok, true, none,
          SaveRespOutcome.ok⟩).dispatchedSecondary = false) :=
  ⟨rfl, rfl, C1_amended _ rfl rfl rfl⟩

/-- C2 (counterexample): the connection handed out by a successful accept on
a fresh listener, closed twice, drives the outstanding-connection counter to
minus one: the net decrement is two units, not one, and the counter becomes
negative (in Go, a WaitGroup panic). -/
theorem C2_counterexample :
    (closeTimes 2 (stoppableListenerAccept (WaitGroup.mk 0))).counter = -1 ∧
      (closeTimes 2 (stoppableListenerAccept (WaitGroup.mk 0))).counter < 0 := by
  decide

/-- C2 (amended): `Close` decrements the counter once per invocation — it is
not idempotent. After a successful accept, `k + 1` invocations of close
leave the counter `k` units below its pre-accept value; in particular a
single close decrements by exactly one net unit, and any further close
decrements again. -/
theorem C2_amended (wg : WaitGroup) (k : Nat) :
    (closeTimes (k + 1) (stoppableListenerAccept wg)).counter
      = wg.counter - k := by
  rw [closeTimes_counter]
  simp only [stoppableListenerAccept, WaitGroup.add]
  omega

/-- C3: every replay reader opened over the persisted bytes of a captured
well-formed request — the primary replay and the secondary replay are both
exactly `replayRequest` of the same stored file — yields a body equal to the
original body bytes. -/
theorem C3_roundtrip (r : HttpRequest) (h : wellFormedRequest r) :
    ∃ r', replayRequest (saveRequestBytes r) = some r' ∧ r'.body = r.body := by
  rw [replayRequest, saveRequestBytes, parseRequest_encodeRequest r h]
  exact ⟨_, rfl, rfl⟩

/-- C3 (witness): a concrete POST-style capture with body "hello". -/
theorem C3_witness :
    wellFormedRequest ⟨[71, 69, 84], [47], [([72, 111, 115, 116], [120])],
        [104, 101, 108, 108, 111]⟩ ∧
      ∃ r', replayRequest (saveRequestBytes
          ⟨[71, 69, 84], [47], [([72, 111, 115, 116], [120])],
            [104, 101, 108, 108, 111]⟩) = some r'
        ∧ r'.body = [104, 101, 108, 108, 111] :=
  ⟨by decide, C3_roundtrip _ (by decide)⟩

/-- C5: when persisting the inbound request fails, the caller receives the
server-error status 500 and neither backend is dispatched. -/
theorem C5_capture_failure (env : EnvA) (hc : env.captureOk = false) :
    (serveHttpA env).status = statusInternalServerError ∧
      (serveHttpA env).dispatchedPrimary = false ∧
      (serveHttpA env).dispatchedSecondary = false := by
  simp [serveHttpA, hc, httpError500]

/-- C5 (witness): the capture-failure path at a concrete environment. -/
theorem C5_witness :
    (⟨false, true, none, SaveRespOutcome.ok, true, none,
        SaveRespOutcome.ok⟩ : EnvA).captureOk = false ∧
      ((serveHttpA ⟨false, true, none, SaveRespOutcome.ok, true, none,
          SaveRespOutcome.ok⟩).status = statusInternalServerError ∧
        (serveHttpA ⟨false, true, none, SaveRespOutcome.ok, true, none,
          SaveRespOutcome.ok⟩).dispatchedPrimary = false ∧
        (serveHttpA ⟨false, true, none, SaveRespOutcome.ok, true, none,
          SaveRespOutcome.ok⟩).dispatchedSecondary = false) :=
  ⟨rfl, C5_capture_failure _ rfl⟩

/-- C10: at the failing input — primary answers 200 with body "ok", but
persisting the primary response fails inside `resp.Write` after it already
drained both body bytes into the doomed file — the fall-back `resp = resp1`
delivers the original status and headers but an empty body, not the
original body bytes. -/
theorem C10_code_bug :
    serveHttpA ⟨true, true, some ⟨200, [([97], [98])], [111, 107]⟩,
        SaveRespOutcome.writeFail 2, false, none, SaveRespOutcome.ok⟩
      = ⟨200, [([97], [98])], [], true, false, false⟩ ∧
      ([] : List Nat) ≠ [111, 107] := by
  decide

/-- C4 (counterexample): in the reverse-proxy variant, on an exchange where
both statuses are 200, no mismatch is logged but the match branch prunes the
request artifact `.0` and the primary artifact `.1` along with `.2` — the
claim that `.0` and `.1` still exist afterwards fails. -/
theorem C4_counterexample :
    (serveHttpB [114] 1 [] 200 200).mismatchLogged = false ∧
      slotFile [114] 1 1 ∉ (serveHttpB [114] 1 [] 200 200).fs ∧
      slotFile [114] 1 0 ∉ (serveHttpB [114] 1 [] 200 200).fs := by
  decide

/-- C4 (amended): on an exchange where both backends answer with equal
statuses, no mismatch is logged and all three persisted artifacts — the
request slot `.0`, the primary slot `.1` and the secondary slot `.2` — are
pruned. -/
theorem C4_amended (dir : List Nat) (id : Nat) (fs0 : List (List Nat))
    (pS sS : Nat) (h : sS = pS) :
    (serveHttpB dir id fs0 pS sS).mismatchLogged = false ∧
      slotFile dir id 0 ∉ (serveHttpB dir id fs0 pS sS).fs ∧
      slotFile dir id 1 ∉ (serveHttpB dir id fs0 pS sS).fs ∧
      slotFile dir id 2 ∉ (serveHttpB dir id fs0 pS sS).fs := by
  subst h
  simp only [serveHttpB, slotFile]
  rw [if_neg (fun hcon => hcon rfl), dropLast_dot_two]
  simp only [List.append_assoc, List.singleton_append]
  refine ⟨trivial, ?_, ?_, ?_⟩
  · exact fsRemove_subset _ _ _ (fsRemove_subset _ _ _ (fsRemove_not_mem _ _))
  · exact fsRemove_subset _ _ _ (fsRemove_not_mem _ _)
  · exact fsRemove_not_mem _ _

/-- C4 (witness): the amended statement at a concrete exchange. -/
theorem C4_witness :
    (200 : Nat) = 200 ∧
      ((serveHttpB [100] 7 [] 200 200).mismatchLogged = false ∧
        slotFile [100] 7 0 ∉ (serveHttpB [100] 7 [] 200 200).fs ∧
        slotFile [100] 7 1 ∉ (serveHttpB [100] 7 [] 200 200).fs ∧
        slotFile [100] 7 2 ∉ (serveHttpB [100] 7 [] 200 200).fs) :=
  ⟨rfl, C4_amended [100] 7 [] 200 200 rfl⟩

/-- C6: the two replay objects of one exchange refer to distinct freshly
allocated header maps; mutating the header set behind one replay leaves the
header set behind the other replay unchanged, in both directions. -/
theorem C6_isolation (h : HeaderHeap) (stored : List Nat) (h' : HeaderHeap)
    (r1 r2 : ReqObj)
    (f g : List (List Nat × List Nat) → List (List Nat × List Nat))
    (hopen : openTwoReplays h stored = some (h', r1, r2)) :
    r1.headersRef ≠ r2.headersRef ∧
      (h'.mutate r1.headersRef f).read r2.headersRef = h'.read r2.headersRef ∧
      (h'.mutate r2.headersRef g).read r1.headersRef = h'.read r1.headersRef := by
  obtain ⟨h1, h2⟩ := openTwoReplays_refs h stored h' r1 r2 hopen
  refine ⟨by omega, ?_, ?_⟩
  · simp only [HeaderHeap.mutate, HeaderHeap.read]
    exact listModify_getElem_ne f h'.cells r1.headersRef r2.headersRef (by omega)
  · simp only [HeaderHeap.mutate, HeaderHeap.read]
    exact listModify_getElem_ne g h'.cells r2.headersRef r1.headersRef (by omega)

/-- C6 (witness): the isolation statement at a concrete capture, mutating
one replay by erasing all its headers. -/
theorem C6_witness :
    openTwoReplays ⟨[]⟩ (saveRequestBytes ⟨[71], [47], [], []⟩)
        = some (⟨[[(contentLengthName, [48])], [(contentLengthName, [48])]]⟩,
            ⟨[71], [47], 0, []⟩, ⟨[71], [47], 1, []⟩) ∧
      ((0 : Nat) ≠ 1 ∧
        ((⟨[[(contentLengthName, [48])], [(contentLengthName, [48])]]⟩ :
            HeaderHeap).mutate 0 (fun _ => [])).read 1
          = (⟨[[(contentLengthName, [48])], [(contentLengthName, [48])]]⟩ :
            HeaderHeap).read 1 ∧
        ((⟨[[(contentLengthName, [48])], [(contentLengthName, [48])]]⟩ :
            HeaderHeap).mutate 1 (fun _ => [])).read 0
          = (⟨[[(contentLengthName, [48])], [(contentLengthName, [48])]]⟩ :
            HeaderHeap).read 0) :=
  ⟨by decide, C6_isolation ⟨[]⟩ (saveRequestBytes ⟨[71], [47], [], []⟩)
    ⟨[[(contentLengthName, [48])], [(contentLengthName, [48])]]⟩
    ⟨[71], [47], 0, []⟩ ⟨[71], [47], 1, []⟩
    (fun _ => []) (fun _ => []) (by decide)⟩

/-- C7: along every run of the shutdown protocol, after the interrupt no
accept succeeds; the process is exited only with the outstanding-connection
counter at zero (every accepted connection has been closed, which in the
server happens only after its response is written); and while connections
are still in flight the close transition stays enabled — the interrupt never
disables completion of in-flight requests. -/
theorem C7_drain (t1 t2 : List ProxyEvent) (s' : ProxyState)
    (h : runTrace initState (t1 ++ ProxyEvent.interrupt :: t2) = some s') :
    ProxyEvent.acceptConn ∉ t2 ∧
      (s'.exited = true → s'.conns = 0) ∧
      (s'.exited = false → 0 < s'.conns →
        stepFn s' ProxyEvent.closeConn ≠ none) := by
  have hzero : s'.exited = true → s'.conns = 0 :=
    runTrace_exited_zero _ initState s' (fun hx => Bool.noConfusion hx) h
  rw [runTrace_append] at h
  cases h1 : runTrace initState t1 with
  | none =>
    rw [h1] at h
    exact Option.noConfusion h
  | some s1 =>
    rw [h1] at h
    rw [show (match some s1 with
        | none => none
        | some s2 => runTrace s2 (ProxyEvent.interrupt :: t2))
      = runTrace s1 (ProxyEvent.interrupt :: t2) from rfl] at h
    rw [runTrace] at h
    cases h2 : stepFn s1 ProxyEvent.interrupt with
    | none =>
      rw [h2] at h
      exact Option.noConfusion h
    | some s2 =>
      rw [h2] at h
      have hs2 : s2.listenerOpen = false := by
        obtain ⟨hex, hcase⟩ := stepFn_spec s1 s2 ProxyEvent.interrupt h2
        rcases hcase with ⟨he, -, -⟩ | ⟨he, -, -⟩ | ⟨-, -, hrec⟩
          | ⟨he, -, -, -⟩ | ⟨he, -, -, -⟩
        · exact ProxyEvent.noConfusion he
        · exact ProxyEvent.noConfusion he
        · rw [hrec]
        · exact ProxyEvent.noConfusion he
        · exact ProxyEvent.noConfusion he
      obtain ⟨-, hnoacc⟩ := runTrace_closed t2 s2 s' hs2 h
      refine ⟨hnoacc, hzero, ?_⟩
      intro hex hc
      rw [stepFn, if_neg (by rw [hex]; exact Bool.noConfusion), if_pos hc]
      exact fun hcon => Option.noConfusion hcon

/-- C7 (witness): one connection is accepted, the interrupt arrives, the
connection finishes and closes, the serve loop returns, the process exits. -/
theorem C7_witness :
    runTrace initState ([ProxyEvent.acceptConn] ++ ProxyEvent.interrupt ::
        [ProxyEvent.closeConn, ProxyEvent.serveReturn, ProxyEvent.exitProc])
      = some ⟨false, 0, true, true, true⟩ ∧
      (ProxyEvent.acceptConn
          ∉ [ProxyEvent.closeConn, ProxyEvent.serveReturn, ProxyEvent.exitProc] ∧
        ((⟨false, 0, true, true, true⟩ : ProxyState).exited = true →
          (⟨false, 0, true, true, true⟩ : ProxyState).conns = 0) ∧
        ((⟨false, 0, true, true, true⟩ : ProxyState).exited = false →
          0 < (⟨false, 0, true, true, true⟩ : ProxyState).conns →
          stepFn ⟨false, 0, true, true, true⟩ ProxyEvent.closeConn ≠ none)) :=
  ⟨by decide, C7_drain [ProxyEvent.acceptConn]
    [ProxyEvent.closeConn, ProxyEvent.serveReturn, ProxyEvent.exitProc]
    ⟨false, 0, true, true, true⟩ (by decide)⟩

/-- C8 (counterexample): the uint32 counter wraps: call number `2 ^ 32`
returns identifier 0, a value strictly smaller than the identifier 1
returned by the first call — the allocator does return a decreasing value. -/
theorem C8_counterexample :
    idAfter 1 = 1 ∧ idAfter (2 ^ 32) = 0 ∧ idAfter (2 ^ 32) < idAfter 1 := by
  have h1 : idAfter 1 = 1 := by
    rw [idAfter_eq]
    norm_num
  have h2 : idAfter (2 ^ 32) = 0 := by
    rw [idAfter_eq, Nat.mod_self]
  exact ⟨h1, h2, by rw [h1, h2]; norm_num⟩

/-- C8 (amended): within the first `2 ^ 32 - 1` calls the allocator is
strictly increasing, hence duplicate-free; monotonicity is lost only when
the uint32 counter wraps. -/
theorem C8_amended (i j : Nat) (hij : i < j) (hj : j < 2 ^ 32) :
    idAfter i < idAfter j := by
  rw [idAfter_eq, idAfter_eq, Nat.mod_eq_of_lt (by omega), Nat.mod_eq_of_lt hj]
  exact hij

/-- C8 (witness): the amended monotonicity at calls one and two. -/
theorem C8_witness : 1 < 2 ∧ 2 < 2 ^ 32 ∧ idAfter 1 < idAfter 2 :=
  ⟨by norm_num, by norm_num, C8_amended 1 2 (by norm_num) (by norm_num)⟩

/-- C9 (counterexample): exchange identifier `10 ^ 9` is allocatable — the
billionth call returns it unwrapped — and its `%09d` rendering has ten
characters, not nine: the universal nine-digit claim fails. -/
theorem C9_counterexample :
    idAfter (10 ^ 9) = 10 ^ 9 ∧ (pad9 (10 ^ 9)).length ≠ 9 := by
  constructor
  · rw [idAfter_eq]
    norm_num
  · have hge := pad9_length_of_ge (10 ^ 9) le_rfl
    omega

/-- C9 (amended): for every exchange identifier below `10 ^ 9` the rendering
is exactly nine zero-padded digits, and the three artifacts of the exchange
are the files `<dir>/<pad9 id>.0`, `.1`, `.2` (shown here on the
mismatch path, where nothing is pruned). -/
theorem C9_amended (dir : List Nat) (id : Nat) (fs0 : List (List Nat))
    (pS sS : Nat) (h9 : id < 10 ^ 9) (hne : sS ≠ pS) :
    (pad9 id).length = 9 ∧
      slotFile dir id 0 ∈ (serveHttpB dir id fs0 pS sS).fs ∧
      slotFile dir id 1 ∈ (serveHttpB dir id fs0 pS sS).fs ∧
      slotFile dir id 2 ∈ (serveHttpB dir id fs0 pS sS).fs := by
  refine ⟨pad9_length_of_lt id h9, ?_⟩
  simp only [serveHttpB, slotFile]
  rw [if_pos hne]
  refine ⟨?_, ?_, ?_⟩
  · exact fsCreate_mem_mono _ _ _ (fsCreate_mem_mono _ _ _ (fsCreate_mem_self _ _))
  · exact fsCreate_mem_mono _ _ _ (fsCreate_mem_self _ _)
  · exact fsCreate_mem_self _ _

/-- C9 (witness): the amended layout at a concrete exchange. -/
theorem C9_witness :
    (1 < 10 ^ 9 ∧ (500 : Nat) ≠ 200) ∧
      ((pad9 1).length = 9 ∧
        slotFile [100] 1 0 ∈ (serveHttpB [100] 1 [] 200 500).fs ∧
        slotFile [100] 1 1 ∈ (serveHttpB [100] 1 [] 200 500).fs ∧
        slotFile [100] 1 2 ∈ (serveHttpB [100] 1 [] 200 500).fs) :=
  ⟨⟨by norm_num, by norm_num⟩, C9_amended [100] 1 [] 200 500 (by norm_num) (by norm_num)⟩
